import Mathlib

/-!
Verification of the habit-tracker core (src/habit-tracker/main.py).

The core functions (`load_habits`, `save_habits`, `add_habit`, `mark_done`,
`unmark_habit`, `delete_habit`, `reset_daily`) operate on Python dicts whose
values are JSON-compatible data (the store is read and written with the
`json` module).  We embed that data shallowly:

* JSON-compatible Python values become the inductive `J` (the store schema
  only ever uses `null`, booleans, integers, strings and objects; JSON
  numbers are therefore modelled as `Int`).
* A Python dict becomes an association list `List (String × J)` with the
  dict operations (`k in d`, `d[k]`, `d[k] = v`, `del d[k]`, `d.get`)
  translated to first-occurrence lookup/update (on the unique-key lists
  that Python dicts produce this is exact).
* Python exceptions become `Except Err`: `ValueError`, `KeyError`,
  `TypeError`, `AttributeError` and `OverflowError` all occur in the code's
  reachable behaviours.  A raise happens before any mutation of the store in
  every function below, which the pure translation captures by the error
  result carrying no store.
* `datetime.date` becomes the `Date` structure with Python's validity range
  (years 1–9999); `datetime.date.fromisoformat` is modelled by `parseIso`
  on the canonical `YYYY-MM-DD` form that `date.isoformat` emits, and
  subtraction of `timedelta(days=1)` by `predDate`, which is `none` exactly
  at `0001-01-01` where Python raises `OverflowError`.
* The `today: str | None = None` defaulting to the current wall-clock date
  is an external input; the functions are embedded with an explicit `today`
  argument, which is how every claim exercises them.
-/

namespace HabitTracker

/-- JSON-compatible Python values as stored in the habit document. -/
inductive J where
  | null : J
  | bool (b : Bool) : J
  | int (n : Int) : J
  | str (s : String) : J
  | arr (elems : List J) : J
  | obj (fields : List (String × J)) : J

/-- A Python dict with string keys, as an association list (unique keys in
any dict the program builds). -/
abbrev Obj := List (String × J)

/-- The in-memory habit store: what `json.load` yields for the habit file. -/
abbrev Store := Obj

/-- Python `k in d`. -/
def hasK : Obj → String → Bool
  | [], _ => false
  | kv :: rest, k => kv.1 == k || hasK rest k

/-- Python `d.get(k, dflt)` (and `d[k]` when the key is known present). -/
def getD : Obj → String → J → J
  | [], _, dflt => dflt
  | kv :: rest, k, dflt => if kv.1 = k then kv.2 else getD rest k dflt

/-- Python `d[k] = v`: replace the (first) binding of `k`, else append. -/
def setK : Obj → String → J → Obj
  | [], k, v => [(k, v)]
  | kv :: rest, k, v => if kv.1 = k then (k, v) :: rest else kv :: setK rest k v

/-- Python `del d[k]` (the key is checked present by every caller). -/
def delK : Obj → String → Obj
  | [], _ => []
  | kv :: rest, k => if kv.1 = k then rest else kv :: delK rest k

/-- Python truthiness of a JSON-compatible value (`if last:` and
`if not name:` in the source). -/
def truthy : J → Bool
  | .null => false
  | .bool b => b
  | .int n => n != 0
  | .str s => s != ""
  | .arr elems => !elems.isEmpty
  | .obj fields => !fields.isEmpty

/-- A calendar date, as `datetime.date` (valid years are 1–9999). -/
structure Date where
  year : Nat
  month : Nat
  day : Nat
  deriving DecidableEq

/-- Gregorian leap-year rule (as used by `datetime`). -/
def isLeap (y : Nat) : Bool :=
  (y % 4 == 0 && y % 100 != 0) || y % 400 == 0

/-- Number of days in month `m` of year `y`. -/
def daysInMonth (y m : Nat) : Nat :=
  if m = 2 then (if isLeap y then 29 else 28)
  else if m = 4 ∨ m = 6 ∨ m = 9 ∨ m = 11 then 30
  else 31

/-- Validity of a year/month/day triple for `datetime.date`. -/
def validDate (y m d : Nat) : Bool :=
  1 ≤ y && y ≤ 9999 && 1 ≤ m && m ≤ 12 && 1 ≤ d && d ≤ daysInMonth y m

/-- Modelled from the spec: `datetime.date.fromisoformat` (library code, not
in src/), restricted to the canonical ISO 8601 `YYYY-MM-DD` form the spec
names for `last_done` and which `date.isoformat` emits.  `none` models the
`ValueError` Python raises on a string that is not a valid date. -/
def parseIso (s : String) : Option Date :=
  match s.data with
  | [y1, y2, y3, y4, h1, m1, m2, h2, d1, d2] =>
    if y1.isDigit && y2.isDigit && y3.isDigit && y4.isDigit
        && h1 == '-' && m1.isDigit && m2.isDigit && h2 == '-'
        && d1.isDigit && d2.isDigit then
      let y := (y1.toNat - 48) * 1000 + (y2.toNat - 48) * 100
                + (y3.toNat - 48) * 10 + (y4.toNat - 48)
      let m := (m1.toNat - 48) * 10 + (m2.toNat - 48)
      let d := (d1.toNat - 48) * 10 + (d2.toNat - 48)
      if validDate y m d then some ⟨y, m, d⟩ else none
    else none
  | _ => none

/-- Python `date - timedelta(days=1)`: the previous calendar day.  `none`
exactly at `0001-01-01`, where Python raises `OverflowError`. -/
def predDate (d : Date) : Option Date :=
  if 1 < d.day then some ⟨d.year, d.month, d.day - 1⟩
  else if 1 < d.month then some ⟨d.year, d.month - 1, daysInMonth d.year (d.month - 1)⟩
  else if 1 < d.year then some ⟨d.year - 1, 12, 31⟩
  else none

/-- The Python exceptions the core functions can raise. -/
inductive Err where
  | valueError : Err
  | keyError : Err
  | typeError : Err
  | attributeError : Err
  | overflowError : Err
  deriving DecidableEq

/-- Source `load_habits` (main.py lines 37–45).  The file system and the
`json` parser are below the embedding: the input is `none` when the file is
absent (`FileNotFoundError`) or its content does not parse
(`json.JSONDecodeError`), both caught by the source, and `some data` when
`json.load` yields the value `data`.  A parsed value that is not a dict is
replaced by the empty store; a dict is returned as is. -/
def load_habits (doc : Option J) : Store :=
  match doc with
  | some (J.obj fields) => fields
  | _ => []

/-- Source `save_habits` (main.py lines 47–49): `json.dump` writes the full
serialization of the store, modelled as the JSON value it round-trips
through (the text layer of the `json` library is faithful on this data). -/
def save_habits (habits : Store) : J :=
  J.obj habits

/-- ASCII whitespace as recognized by Python's `str.strip` (Unicode space
characters, which no claim exercises, are left aside). -/
def isStripWS (c : Char) : Bool :=
  c == ' ' || c == '\t' || c == '\n' || c == '\r' || c == '\x0b' || c == '\x0c'

/-- Python `name.strip()`: drop leading and trailing whitespace. -/
def strip (s : String) : String :=
  String.mk (((s.data.dropWhile isStripWS).reverse.dropWhile isStripWS).reverse)

/-- The fresh record `add_habit` inserts:
`{"done": False, "streak": 0, "last_done": None}`. -/
def newRecord : J :=
  J.obj [("done", J.bool false), ("streak", J.int 0), ("last_done", J.null)]

/-- Source `add_habit` (main.py lines 51–58).  Note the source rebinds
`name = name.strip()` before both the emptiness and the membership check
and before the insertion. -/
def add_habit (habits : Store) (name : String) : Except Err Store :=
  let name := strip name
  if name = "" then .error .valueError
  else if hasK habits name then .error .valueError
  else .ok (setK habits name newRecord)

/-- Python `info.get("streak", 0) + 1`: integer successor, with `bool`
treated as `int` (Python's `bool` is an `int` subclass); any other operand
raises `TypeError`. -/
def jAddOne : J → Except Err Int
  | .int n => .ok (n + 1)
  | .bool b => .ok ((if b then 1 else 0) + 1)
  | _ => .error .typeError

/-- The unconditional tail of `mark_done`: `info["streak"]` was already
updated in `fields`; set `info["done"] = True`, `info["last_done"] = today`
and store the record back (`habits[name] = info` re-binds the same dict). -/
def markFinish (habits : Store) (name : String) (fields : Obj) (today : String) : Store :=
  setK habits name (J.obj (setK (setK fields "done" (J.bool true)) "last_done" (J.str today)))

/-- Source `mark_done` (main.py lines 60–82) with an explicit `today`
argument (the `None` default takes the current wall-clock date).  The
branch structure follows the source exactly: raise `KeyError` on an absent
name; read `last = info.get("last_done")`; when `last` is truthy, parse it
and `today` and compare against `today`'s previous day (the subtraction is
evaluated before either comparison, so `OverflowError` at the minimum date
pre-empts both); update `streak` accordingly; then set `done` and
`last_done` unconditionally. -/
def mark_done (habits : Store) (name : String) (today : String) : Except Err Store :=
  if hasK habits name = false then .error .keyError
  else
    match getD habits name J.null with
    | J.obj fields =>
      let last := getD fields "last_done" J.null
      if truthy last then
        match last with
        | J.str ls =>
          match parseIso ls with
          | none => .error .valueError
          | some lastDate =>
            match parseIso today with
            | none => .error .valueError
            | some td =>
              match predDate td with
              | none => .error .overflowError
              | some ytd =>
                if lastDate = ytd then
                  match jAddOne (getD fields "streak" (J.int 0)) with
                  | .error e => .error e
                  | .ok n => .ok (markFinish habits name (setK fields "streak" (J.int n)) today)
                else if lastDate = td then
                  .ok (markFinish habits name fields today)
                else
                  .ok (markFinish habits name (setK fields "streak" (J.int 1)) today)
        | _ => .error .typeError
      else
        .ok (markFinish habits name (setK fields "streak" (J.int 1)) today)
    | _ => .error .attributeError

/-- Source `unmark_habit` (main.py lines 84–88): raise `KeyError` on an
absent name, otherwise `habits[name]["done"] = False`. -/
def unmark_habit (habits : Store) (name : String) : Except Err Store :=
  if hasK habits name = false then .error .keyError
  else
    match getD habits name J.null with
    | J.obj fields => .ok (setK habits name (J.obj (setK fields "done" (J.bool false))))
    | _ => .error .typeError

/-- Source `delete_habit` (main.py lines 90–94): raise `KeyError` on an
absent name, otherwise `del habits[name]`. -/
def delete_habit (habits : Store) (name : String) : Except Err Store :=
  if hasK habits name = false then .error .keyError
  else .ok (delK habits name)

/-- Python `last_reset == today` where `today` is a string: only an equal
string compares equal (`None == str` and every other cross-type comparison
in this data is `False`). -/
def eqStr (v : J) (s : String) : Bool :=
  match v with
  | .str t => t == s
  | _ => false

/-- The reset loop of `reset_daily`: `for k, v in list(habits.items())`,
skipping `"_meta"` and setting `v["done"] = False` on every dict value. -/
def clearDones (habits : Store) : Store :=
  habits.map fun kv =>
    if kv.1 = "_meta" then kv
    else
      match kv.2 with
      | J.obj fields => (kv.1, J.obj (setK fields "done" (J.bool false)))
      | _ => kv

/-- Source `reset_daily` (main.py lines 96–111) with an explicit `today`
argument.  `meta = habits.get("_meta", {})`; `meta.get("last_reset")`
raises `AttributeError` when a stored `_meta` value is not a dict; if
`last_reset == today` the store is returned unchanged, otherwise every
non-meta dict value has `done` cleared and `_meta` is replaced by
`{"last_reset": today}`. -/
def reset_daily (habits : Store) (today : String) : Except Err Store :=
  match getD habits "_meta" (J.obj []) with
  | J.obj meta =>
    if eqStr (getD meta "last_reset" J.null) today then .ok habits
    else .ok (setK (clearDones habits) "_meta" (J.obj [("last_reset", J.str today)]))
  | _ => .error .attributeError

/-- The data-model invariant of a habit record (spec §3): `streak >= 0`
and `last_done`, when present, a valid calendar date. -/
def recInv (v : J) : Bool :=
  match v with
  | J.obj fields =>
    (match getD fields "streak" (J.int 0) with
     | J.int n => decide (0 ≤ n)
     | _ => false)
    && (match getD fields "last_done" J.null with
        | J.null => true
        | J.str ls => (parseIso ls).isSome
        | _ => false)
  | _ => false

/-- The data-model invariant of a store: every non-meta entry is a habit
record satisfying `recInv` (the `_meta` entry is not a habit record). -/
def storeInv (s : Store) : Bool :=
  s.all fun kv => kv.1 == "_meta" || recInv kv.2

/-- Well-formedness of a habit record per the documented document shape
(spec §6): `{done: bool, streak: integer, last_done: date-string-or-null}`. -/
def recordWF (v : J) : Bool :=
  match v with
  | J.obj fields =>
    (match getD fields "done" J.null with | J.bool _ => true | _ => false)
    && (match getD fields "streak" J.null with | J.int _ => true | _ => false)
    && (match getD fields "last_done" J.null with
        | J.null => true
        | J.str ls => (parseIso ls).isSome
        | _ => false)
  | _ => false

/-- Well-formedness of the `_meta` entry: `{last_reset: date-string}`. -/
def metaWF (v : J) : Bool :=
  match v with
  | J.obj fields =>
    (match getD fields "last_reset" J.null with | J.str _ => true | _ => false)
  | _ => false

/-- A well-formed store per the documented document shape: habit-name keys
mapping to well-formed records, plus the `_meta` entry. -/
def storeWF (s : Store) : Bool :=
  hasK s "_meta" && s.all fun kv => if kv.1 == "_meta" then metaWF kv.2 else recordWF kv.2

/-! Association-list lemmas used by the claim proofs. -/

theorem getD_setK_self (o : Obj) (k : String) (v d : J) :
    getD (setK o k v) k d = v := by
  induction o with
  | nil => simp [setK, getD]
  | cons kv rest ih =>
    by_cases hk : kv.1 = k
    · simp [setK, hk, getD]
    · simp [setK, hk, getD, ih]

theorem getD_setK_ne (o : Obj) {k k' : String} (hne : k' ≠ k) (v d : J) :
    getD (setK o k v) k' d = getD o k' d := by
  induction o with
  | nil => simp [setK, getD, Ne.symm hne]
  | cons kv rest ih =>
    by_cases hk : kv.1 = k
    · subst hk
      simp [setK, getD, hne, Ne.symm hne]
    · simp only [setK, if_neg hk]
      by_cases hk' : kv.1 = k'
      · simp [getD, hk']
      · simp [getD, hk', ih]

theorem setK_of_hasK_false (o : Obj) (k : String) (v : J) (habs : hasK o k = false) :
    setK o k v = o ++ [(k, v)] := by
  induction o with
  | nil => simp [setK]
  | cons kv rest ih =>
    simp only [hasK, Bool.or_eq_false_iff, beq_eq_false_iff_ne, ne_eq] at habs
    simp [setK, habs.1, ih habs.2]

theorem hasK_append (a b : Obj) (k : String) :
    hasK (a ++ b) k = (hasK a k || hasK b k) := by
  induction a with
  | nil => simp [hasK]
  | cons kv rest ih => simp [hasK, ih, Bool.or_assoc]

theorem mem_of_getD (o : Obj) (k : String) (d : J) (hmem : hasK o k = true) :
    (k, getD o k d) ∈ o := by
  induction o with
  | nil => simp [hasK] at hmem
  | cons kv rest ih =>
    by_cases hk : kv.1 = k
    · subst hk
      simp [getD]
    · simp only [hasK, Bool.or_eq_true, beq_iff_eq] at hmem
      rcases hmem with hmem | hmem
      · exact absurd hmem hk
      · simp only [getD, if_neg hk]
        exact List.mem_cons_of_mem _ (ih hmem)

theorem hasK_of_not_false {o : Obj} {k : String} (h : ¬hasK o k = false) :
    hasK o k = true := by
  revert h
  cases hasK o k <;> simp

/-! Lemmas about the data-model invariant. -/

theorem storeInv_setK {s : Store} {k : String} {v : J} (hs : storeInv s = true)
    (hv : k = "_meta" ∨ recInv v = true) : storeInv (setK s k v) = true := by
  induction s with
  | nil =>
    simp only [setK, storeInv, List.all_cons, List.all_nil, Bool.and_true]
    rcases hv with hv | hv <;> simp [hv]
  | cons kv rest ih =>
    simp only [storeInv, List.all_cons, Bool.and_eq_true] at hs
    by_cases hk : kv.1 = k
    · simp only [setK, if_pos hk, storeInv, List.all_cons, Bool.and_eq_true]
      refine ⟨?_, hs.2⟩
      rcases hv with hv | hv <;> simp [hv]
    · simp only [setK, if_neg hk, storeInv, List.all_cons, Bool.and_eq_true]
      exact ⟨hs.1, ih hs.2⟩

theorem storeInv_delK {s : Store} (k : String) (hs : storeInv s = true) :
    storeInv (delK s k) = true := by
  induction s with
  | nil => simp [delK, storeInv]
  | cons kv rest ih =>
    simp only [storeInv, List.all_cons, Bool.and_eq_true] at hs
    by_cases hk : kv.1 = k
    · simpa only [delK, if_pos hk, storeInv] using hs.2
    · simp only [delK, if_neg hk, storeInv, List.all_cons, Bool.and_eq_true]
      exact ⟨hs.1, ih hs.2⟩

theorem recInv_setK_done (fields : Obj) (b : Bool)
    (h : recInv (J.obj fields) = true) :
    recInv (J.obj (setK fields "done" (J.bool b))) = true := by
  simp only [recInv] at h ⊢
  rw [getD_setK_ne fields (show "streak" ≠ "done" by decide),
      getD_setK_ne fields (show "last_done" ≠ "done" by decide)]
  exact h

theorem storeInv_clearDones {s : Store} (hs : storeInv s = true) :
    storeInv (clearDones s) = true := by
  induction s with
  | nil => simp [clearDones, storeInv]
  | cons kv rest ih =>
    simp only [storeInv, List.all_cons, Bool.and_eq_true] at hs
    have tail : storeInv (clearDones rest) = true := ih hs.2
    simp only [clearDones, List.map_cons, storeInv, List.all_cons, Bool.and_eq_true]
    refine ⟨?_, tail⟩
    by_cases hk : kv.1 = "_meta"
    · simp [hk]
    · have hrec : recInv kv.2 = true := by
        have := hs.1
        simp only [Bool.or_eq_true, beq_iff_eq] at this
        rcases this with h | h
        · exact absurd h hk
        · exact h
      simp only [if_neg hk]
      match hv : kv.2 with
      | J.obj fields =>
        simp only [Bool.or_eq_true, beq_iff_eq]
        exact Or.inr (recInv_setK_done fields false (hv ▸ hrec))
      | J.null | J.bool _ | J.int _ | J.str _ | J.arr _ =>
        simp only [Bool.or_eq_true, beq_iff_eq]
        exact Or.inr (hv ▸ hrec)

theorem getD_clearDones {s : Store} {k : String} {fields : Obj}
    (hk : k ≠ "_meta") (hval : getD s k J.null = J.obj fields) :
    getD (clearDones s) k J.null = J.obj (setK fields "done" (J.bool false)) := by
  induction s with
  | nil => simp [getD] at hval
  | cons kv rest ih =>
    obtain ⟨k1, v1⟩ := kv
    by_cases hkv : k1 = k
    · subst hkv
      simp only [getD, if_pos rfl] at hval
      subst hval
      simp [clearDones, getD, if_neg hk]
    · simp only [getD, if_neg hkv] at hval
      have tail := ih hval
      simp only [clearDones, List.map_cons] at tail ⊢
      by_cases hmeta : k1 = "_meta"
      · simpa [getD, hmeta, if_neg (hmeta ▸ hkv)] using tail
      · match v1 with
        | J.obj f2 => simpa [getD, if_neg hmeta, if_neg hkv] using tail
        | J.null => simpa [getD, if_neg hmeta, if_neg hkv] using tail
        | J.bool b => simpa [getD, if_neg hmeta, if_neg hkv] using tail
        | J.int n => simpa [getD, if_neg hmeta, if_neg hkv] using tail
        | J.str t => simpa [getD, if_neg hmeta, if_neg hkv] using tail
        | J.arr elems => simpa [getD, if_neg hmeta, if_neg hkv] using tail

theorem parseIso_ne_empty {ls : String} {d : Date} (h : parseIso ls = some d) :
    (ls != "") = true := by
  rcases eq_or_ne ls "" with he | he
  · subst he
    exact Option.noConfusion h
  · simp [he]

theorem predDate_ne {d y : Date} (h : predDate d = some y) : y ≠ d := by
  unfold predDate at h
  split_ifs at h with h1 h2 h3
  · replace h := Option.some.inj h
    intro he
    have hd : d.day - 1 = d.day := congrArg Date.day (h.trans he)
    omega
  · replace h := Option.some.inj h
    intro he
    have hm : d.month - 1 = d.month := congrArg Date.month (h.trans he)
    omega
  · replace h := Option.some.inj h
    intro he
    have hy : d.year - 1 = d.year := congrArg Date.year (h.trans he)
    omega

theorem recInv_newRecord : recInv newRecord = true := rfl

theorem recInv_of_getD {s : Store} {name : String} {fields : Obj}
    (hs : storeInv s = true) (hmem : hasK s name = true)
    (hname : name ≠ "_meta") (heq : getD s name J.null = J.obj fields) :
    recInv (J.obj fields) = true := by
  have hm := mem_of_getD s name J.null hmem
  rw [heq] at hm
  simp only [storeInv, List.all_eq_true] at hs
  have h2 := hs _ hm
  simp only [Bool.or_eq_true, beq_iff_eq] at h2
  exact h2.resolve_left hname

theorem recInv_markFields (fields : Obj) (n : Int) (today : String)
    (hn : 0 ≤ n) (ht : (parseIso today).isSome = true) :
    recInv (J.obj (setK (setK (setK fields "streak" (J.int n)) "done" (J.bool true))
      "last_done" (J.str today))) = true := by
  simp only [recInv]
  rw [getD_setK_ne _ (show "streak" ≠ "last_done" by decide),
      getD_setK_ne _ (show "streak" ≠ "done" by decide),
      getD_setK_self, getD_setK_self]
  simp [hn, ht]

theorem recInv_passFields (fields : Obj) (today : String)
    (ht : (parseIso today).isSome = true)
    (hrec : recInv (J.obj fields) = true) :
    recInv (J.obj (setK (setK fields "done" (J.bool true))
      "last_done" (J.str today))) = true := by
  simp only [recInv, Bool.and_eq_true] at hrec ⊢
  constructor
  · rw [getD_setK_ne _ (show "streak" ≠ "last_done" by decide),
        getD_setK_ne _ (show "streak" ≠ "done" by decide)]
    exact hrec.1
  · rw [getD_setK_self]
    simpa using ht

theorem storeInv_add_habit {s : Store} {name : String} {s' : Store}
    (hs : storeInv s = true) (hok : add_habit s name = .ok s') :
    storeInv s' = true := by
  simp only [add_habit] at hok
  by_cases h1 : strip name = ""
  · simp [h1] at hok
  · by_cases h2 : hasK s (strip name) = true
    · simp [h1, h2] at hok
    · simp [h1, h2] at hok
      exact hok ▸ storeInv_setK hs (Or.inr recInv_newRecord)

theorem storeInv_unmark_habit {s : Store} {name : String} {s' : Store}
    (hs : storeInv s = true) (hok : unmark_habit s name = .ok s') :
    storeInv s' = true := by
  unfold unmark_habit at hok
  split at hok
  · exact Except.noConfusion hok
  · rename_i hmemF
    split at hok
    · rename_i fields heq
      have hs' := Except.ok.inj hok
      subst hs'
      by_cases hname : name = "_meta"
      · exact storeInv_setK hs (Or.inl hname)
      · have hrec := recInv_of_getD hs (hasK_of_not_false hmemF) hname heq
        exact storeInv_setK hs (Or.inr (recInv_setK_done fields false hrec))
    · exact Except.noConfusion hok

theorem storeInv_delete_habit {s : Store} {name : String} {s' : Store}
    (hs : storeInv s = true) (hok : delete_habit s name = .ok s') :
    storeInv s' = true := by
  unfold delete_habit at hok
  split at hok
  · exact Except.noConfusion hok
  · exact (Except.ok.inj hok) ▸ storeInv_delK name hs

theorem recInv_streak {fields : Obj} (h : recInv (J.obj fields) = true) :
    ∃ m : Int, getD fields "streak" (J.int 0) = J.int m ∧ 0 ≤ m := by
  simp only [recInv, Bool.and_eq_true] at h
  rcases hst : getD fields "streak" (J.int 0) with _ | b | m | t | e | f <;>
      rw [hst] at h
  · simp at h
  · simp at h
  · exact ⟨m, rfl, by simpa using h.1⟩
  · simp at h
  · simp at h
  · simp at h

theorem storeInv_markFinish {s : Store} {name today : String} (X : Obj)
    (hs : storeInv s = true) (ht : (parseIso today).isSome = true)
    (hX : name ≠ "_meta" → ∃ m : Int, getD X "streak" (J.int 0) = J.int m ∧ 0 ≤ m) :
    storeInv (markFinish s name X today) = true := by
  unfold markFinish
  by_cases hname : name = "_meta"
  · exact storeInv_setK hs (Or.inl hname)
  · obtain ⟨m, hm, hm0⟩ := hX hname
    refine storeInv_setK hs (Or.inr ?_)
    simp only [recInv]
    rw [getD_setK_ne _ (show "streak" ≠ "last_done" by decide),
        getD_setK_ne _ (show "streak" ≠ "done" by decide), hm,
        getD_setK_self]
    simp [hm0, ht]

theorem storeInv_mark_done {s : Store} {name today : String} {s' : Store}
    (hs : storeInv s = true) (ht : (parseIso today).isSome = true)
    (hok : mark_done s name today = .ok s') : storeInv s' = true := by
  unfold mark_done at hok
  by_cases hmemB : hasK s name = false
  · rw [if_pos hmemB] at hok
    exact Except.noConfusion hok
  · rw [if_neg hmemB] at hok
    rcases hval : getD s name J.null with _ | b | n0 | t0 | es | fields <;>
        rw [hval] at hok
    · exact Except.noConfusion hok
    · exact Except.noConfusion hok
    · exact Except.noConfusion hok
    · exact Except.noConfusion hok
    · exact Except.noConfusion hok
    · dsimp only at hok
      rcases hlast : getD fields "last_done" J.null with _ | b1 | n1 | ls | es1 | f1 <;>
          rw [hlast] at hok
      · simp only [truthy, Bool.false_eq_true, if_false] at hok
        replace hok := Except.ok.inj hok
        subst hok
        exact storeInv_markFinish _ hs ht (fun _ => ⟨1, getD_setK_self _ _ _ _, by decide⟩)
      · cases b1
        · simp only [truthy, Bool.false_eq_true, if_false] at hok
          replace hok := Except.ok.inj hok
          subst hok
          exact storeInv_markFinish _ hs ht (fun _ => ⟨1, getD_setK_self _ _ _ _, by decide⟩)
        · rw [show truthy (J.bool true) = true from rfl, if_pos rfl] at hok
          exact Except.noConfusion hok
      · by_cases hz : n1 = 0
        · subst hz
          rw [show truthy (J.int 0) = false by decide] at hok
          simp only [Bool.false_eq_true, if_false] at hok
          replace hok := Except.ok.inj hok
          subst hok
          exact storeInv_markFinish _ hs ht (fun _ => ⟨1, getD_setK_self _ _ _ _, by decide⟩)
        · rw [show truthy (J.int n1) = (n1 != 0) from rfl,
              bne_iff_ne.mpr hz, if_pos rfl] at hok
          exact Except.noConfusion hok
      · by_cases he : ls = ""
        · subst he
          rw [show truthy (J.str "") = false from rfl] at hok
          simp only [Bool.false_eq_true, if_false] at hok
          replace hok := Except.ok.inj hok
          subst hok
          exact storeInv_markFinish _ hs ht (fun _ => ⟨1, getD_setK_self _ _ _ _, by decide⟩)
        · rw [show truthy (J.str ls) = (ls != "") from rfl,
              bne_iff_ne.mpr he, if_pos rfl] at hok
          dsimp only at hok
          rcases hpls : parseIso ls with _ | lastDate <;> simp only [hpls] at hok
          · exact Except.noConfusion hok
          · rcases hpt : parseIso today with _ | td <;> simp only [hpt] at hok
            · exact Except.noConfusion hok
            · rcases hpred : predDate td with _ | ytd <;> simp only [hpred] at hok
              · exact Except.noConfusion hok
              · by_cases hyd : lastDate = ytd
                · rw [if_pos hyd] at hok
                  rcases hj : jAddOne (getD fields "streak" (J.int 0)) with e | n <;>
                      rw [hj] at hok
                  · exact Except.noConfusion hok
                  · replace hok := Except.ok.inj hok
                    subst hok
                    refine storeInv_markFinish _ hs ht (fun hname => ?_)
                    obtain ⟨m, hm, hm0⟩ :=
                      recInv_streak (recInv_of_getD hs (hasK_of_not_false hmemB) hname hval)
                    rw [hm] at hj
                    replace hj := Except.ok.inj hj
                    exact ⟨n, getD_setK_self _ _ _ _, by omega⟩
                · rw [if_neg hyd] at hok
                  by_cases htd : lastDate = td
                  · rw [if_pos htd] at hok
                    replace hok := Except.ok.inj hok
                    subst hok
                    refine storeInv_markFinish _ hs ht (fun hname => ?_)
                    exact recInv_streak (recInv_of_getD hs (hasK_of_not_false hmemB) hname hval)
                  · rw [if_neg htd] at hok
                    replace hok := Except.ok.inj hok
                    subst hok
                    exact storeInv_markFinish _ hs ht
                      (fun _ => ⟨1, getD_setK_self _ _ _ _, by decide⟩)
      · cases es1
        · simp only [truthy, List.isEmpty_nil, Bool.not_true, Bool.false_eq_true, if_false] at hok
          replace hok := Except.ok.inj hok
          subst hok
          exact storeInv_markFinish _ hs ht (fun _ => ⟨1, getD_setK_self _ _ _ _, by decide⟩)
        · rw [show truthy (J.arr (_ :: _)) = true from rfl, if_pos rfl] at hok
          exact Except.noConfusion hok
      · cases f1
        · simp only [truthy, List.isEmpty_nil, Bool.not_true, Bool.false_eq_true, if_false] at hok
          replace hok := Except.ok.inj hok
          subst hok
          exact storeInv_markFinish _ hs ht (fun _ => ⟨1, getD_setK_self _ _ _ _, by decide⟩)
        · rw [show truthy (J.obj (_ :: _)) = true from rfl, if_pos rfl] at hok
          exact Except.noConfusion hok

theorem storeInv_reset_daily {s : Store} {today : String} {s' : Store}
    (hs : storeInv s = true) (hok : reset_daily s today = .ok s') :
    storeInv s' = true := by
  unfold reset_daily at hok
  split at hok
  · split at hok
    · exact (Except.ok.inj hok) ▸ hs
    · exact (Except.ok.inj hok) ▸ storeInv_setK (storeInv_clearDones hs) (Or.inl rfl)
  · exact Except.noConfusion hok

/-! Claim theorems. -/

/-- C7: for every store and every name that is not a key of the store,
`mark_done`, `unmark_habit` and `delete_habit` each fail with `KeyError`
(the NotFound error kind) and leave the store unchanged — each raises
before any mutation, so the error result carries no modified store. -/
theorem C7_unknown_name_errors (s : Store) (name today : String)
    (habs : hasK s name = false) :
    mark_done s name today = .error .keyError
    ∧ unmark_habit s name = .error .keyError
    ∧ delete_habit s name = .error .keyError := by
  unfold mark_done unmark_habit delete_habit
  rw [habs]
  exact ⟨rfl, rfl, rfl⟩

/-- Witness for C7: a concrete store with key `a` and the absent name `b`. -/
theorem C7_witness :
    mark_done [("a", newRecord)] "b" "2025-01-01" = .error .keyError
    ∧ unmark_habit [("a", newRecord)] "b" = .error .keyError
    ∧ delete_habit [("a", newRecord)] "b" = .error .keyError :=
  C7_unknown_name_errors [("a", newRecord)] "b" "2025-01-01" rfl

/-- C10: for every store without the key `_meta`, `add_habit` on the name
`_meta` succeeds and appends an ordinary habit record
`{done: false, streak: 0, last_done: null}` under the reserved key — the
metadata key is not rejected as a habit name. -/
theorem C10_meta_not_reserved (s : Store) (habs : hasK s "_meta" = false) :
    add_habit s "_meta" = .ok (s ++ [("_meta", newRecord)]) := by
  simp only [add_habit, show strip "_meta" = "_meta" from rfl]
  rw [if_neg (show ¬("_meta" : String) = "" by decide), habs,
    if_neg (show ¬(false = true) by decide), setK_of_hasK_false s "_meta" newRecord habs]

/-- Witness for C10: adding `_meta` to a store holding only habit `a`. -/
theorem C10_witness :
    add_habit [("a", newRecord)] "_meta" = .ok [("a", newRecord), ("_meta", newRecord)] :=
  C10_meta_not_reserved [("a", newRecord)] rfl

/-- C8: for every store containing habit `h` (bound to a record object),
`unmark_habit` sets that record's `done` to `false` and leaves its other
fields (in particular `streak` and `last_done`) and every other entry of
the store unchanged. -/
theorem C8_unmark_frame (s : Store) (h : String) (fields : Obj)
    (hmem : hasK s h = true) (hval : getD s h J.null = J.obj fields) :
    unmark_habit s h = .ok (setK s h (J.obj (setK fields "done" (J.bool false))))
    ∧ getD (setK fields "done" (J.bool false)) "done" J.null = J.bool false
    ∧ (∀ k d, k ≠ "done" → getD (setK fields "done" (J.bool false)) k d = getD fields k d)
    ∧ (∀ k d, k ≠ h →
        getD (setK s h (J.obj (setK fields "done" (J.bool false)))) k d = getD s k d) := by
  refine ⟨?_, getD_setK_self _ _ _ _, fun k d hk => getD_setK_ne _ hk _ _,
    fun k d hk => getD_setK_ne _ hk _ _⟩
  unfold unmark_habit
  rw [hmem, if_neg (show ¬(true = false) by decide)]
  simp only [hval]

/-- Witness for C8 at a concrete one-habit store with `done = true`. -/
theorem C8_witness :
    unmark_habit
      [("Read", J.obj [("done", J.bool true), ("streak", J.int 4),
        ("last_done", J.str "2025-01-01")])] "Read"
    = .ok [("Read", J.obj [("done", J.bool false), ("streak", J.int 4),
        ("last_done", J.str "2025-01-01")])] :=
  (C8_unmark_frame
    [("Read", J.obj [("done", J.bool true), ("streak", J.int 4),
      ("last_done", J.str "2025-01-01")])] "Read"
    [("done", J.bool true), ("streak", J.int 4), ("last_done", J.str "2025-01-01")]
    rfl rfl).1

/-- C5: for every well-formed store (habit-name keys bound to records of
the documented shape plus the `_meta` entry), saving and re-loading
returns a structurally equal store. -/
theorem C5_round_trip (s : Store) (hwf : storeWF s = true) :
    load_habits (some (save_habits s)) = s := rfl

/-- Witness for C5 at a concrete well-formed store. -/
theorem C5_witness :
    load_habits (some (save_habits
      [("Read", J.obj [("done", J.bool true), ("streak", J.int 3),
        ("last_done", J.str "2025-01-01")]),
       ("_meta", J.obj [("last_reset", J.str "2025-01-01")])]))
    = [("Read", J.obj [("done", J.bool true), ("streak", J.int 3),
        ("last_done", J.str "2025-01-01")]),
       ("_meta", J.obj [("last_reset", J.str "2025-01-01")])] :=
  C5_round_trip _ (by decide)

/-- C4 as stated is refuted: a document that parses to a well-formed object
that is not of the documented store shape (here `{"x": 5}`, which has no
`_meta` entry and whose only value is not a record object) is returned by
`load_habits` as is, not replaced by the empty store. -/
theorem C4_counterexample :
    storeWF [("x", J.int 5)] = false
    ∧ load_habits (some (J.obj [("x", J.int 5)])) = [("x", J.int 5)]
    ∧ [("x", J.int 5)] ≠ ([] : Store) :=
  ⟨rfl, rfl, fun h => List.noConfusion h⟩

/-- C4 (amended): `load_habits` returns the empty store when the location
does not exist or its content fails to parse (`none`), and when the parsed
content is not an object; a parsed object is returned unchanged even when
its entries do not match the documented record shape.  No exception
surfaces to the caller (the function is total). -/
theorem C4_load_amended :
    load_habits none = []
    ∧ (∀ fields, load_habits (some (J.obj fields)) = fields)
    ∧ (∀ v, (∀ fields, v ≠ J.obj fields) → load_habits (some v) = []) := by
  refine ⟨rfl, fun _ => rfl, ?_⟩
  intro v hv
  cases v with
  | obj fields => exact absurd rfl (hv fields)
  | null => rfl
  | bool b => rfl
  | int n => rfl
  | str t => rfl
  | arr es => rfl

/-- Witness for C4 (amended) at the non-object document `[]`. -/
theorem C4_witness : load_habits (some (J.arr [])) = [] :=
  C4_load_amended.2.2 (J.arr []) (fun fields h => J.noConfusion h)

/-- C2: for every store whose `_meta` entry (if present) is an object,
`reset_daily` is a no-op when `_meta.last_reset` equals `today`; otherwise
it clears `done` on every non-meta record object — leaving each record's
other fields, in particular `streak` and `last_done`, unchanged — and
replaces `_meta` by `{last_reset: today}`; and a second call with the same
date is a no-op. -/
theorem C2_reset_daily_idempotent (s : Store) (today : String) (meta : Obj)
    (hmeta : getD s "_meta" (J.obj []) = J.obj meta) :
    (eqStr (getD meta "last_reset" J.null) today = true → reset_daily s today = .ok s)
    ∧ (eqStr (getD meta "last_reset" J.null) today = false →
        reset_daily s today
          = .ok (setK (clearDones s) "_meta" (J.obj [("last_reset", J.str today)])))
    ∧ (∀ k fields, k ≠ "_meta" → getD s k J.null = J.obj fields →
        getD (setK (clearDones s) "_meta" (J.obj [("last_reset", J.str today)])) k J.null
          = J.obj (setK fields "done" (J.bool false)))
    ∧ getD (setK (clearDones s) "_meta" (J.obj [("last_reset", J.str today)]))
        "_meta" (J.obj []) = J.obj [("last_reset", J.str today)]
    ∧ (∀ s', reset_daily s today = .ok s' → reset_daily s' today = .ok s') := by
  refine ⟨?_, ?_, ?_, getD_setK_self _ _ _ _, ?_⟩
  · intro hc
    unfold reset_daily
    simp only [hmeta]
    rw [hc, if_pos rfl]
  · intro hc
    unfold reset_daily
    simp only [hmeta]
    rw [hc, if_neg (show ¬(false = true) by decide)]
  · intro k fields hk hval
    exact (getD_setK_ne _ hk _ _).trans (getD_clearDones hk hval)
  · intro s' hok
    unfold reset_daily at hok
    simp only [hmeta] at hok
    by_cases hc : eqStr (getD meta "last_reset" J.null) today = true
    · rw [hc, if_pos rfl] at hok
      replace hok := Except.ok.inj hok
      subst hok
      unfold reset_daily
      simp only [hmeta]
      rw [hc, if_pos rfl]
    · replace hc : eqStr (getD meta "last_reset" J.null) today = false := by
        revert hc
        cases eqStr (getD meta "last_reset" J.null) today <;> simp
      rw [hc, if_neg (show ¬(false = true) by decide)] at hok
      replace hok := Except.ok.inj hok
      subst hok
      unfold reset_daily
      rw [getD_setK_self]
      simp [eqStr, getD]

/-- Witness for C2 at a concrete store (one habit done, stale `_meta`). -/
theorem C2_witness :
    reset_daily
      [("a", J.obj [("done", J.bool true), ("streak", J.int 2),
        ("last_done", J.str "2025-01-01")]),
       ("_meta", J.obj [("last_reset", J.str "2025-01-01")])] "2025-01-02"
    = .ok [("a", J.obj [("done", J.bool false), ("streak", J.int 2),
        ("last_done", J.str "2025-01-01")]),
       ("_meta", J.obj [("last_reset", J.str "2025-01-02")])] :=
  (C2_reset_daily_idempotent
    [("a", J.obj [("done", J.bool true), ("streak", J.int 2),
      ("last_done", J.str "2025-01-01")]),
     ("_meta", J.obj [("last_reset", J.str "2025-01-01")])] "2025-01-02"
    [("last_reset", J.str "2025-01-01")] rfl).2.1 rfl

/-- C9: `add_habit` inserts under the whitespace-trimmed form of the name
(not under the untrimmed name when the two differ), and its duplicate
check compares the trimmed form against the existing keys. -/
theorem C9_trimmed_insert (s : Store) (name : String) (hne : strip name ≠ "") :
    (hasK s (strip name) = false →
      add_habit s name = .ok (s ++ [(strip name, newRecord)]))
    ∧ (hasK s (strip name) = false → name ≠ strip name → hasK s name = false →
        hasK (s ++ [(strip name, newRecord)]) name = false)
    ∧ (hasK s (strip name) = true → add_habit s name = .error .valueError) := by
  refine ⟨?_, ?_, ?_⟩
  · intro habs
    simp only [add_habit]
    rw [if_neg hne, habs, if_neg (show ¬(false = true) by decide),
      setK_of_hasK_false s (strip name) newRecord habs]
  · intro habs hdiff hnk
    rw [hasK_append, hnk]
    simp [hasK, Ne.symm hdiff]
  · intro hdup
    simp only [add_habit]
    rw [if_neg hne, hdup, if_pos rfl]

/-- Witness for C9: adding `" Read "` to a store with key `Other` inserts
under `Read`, and adding it to a store with key `Read` fails. -/
theorem C9_witness :
    add_habit [("Other", newRecord)] " Read "
      = .ok [("Other", newRecord), ("Read", newRecord)]
    ∧ hasK [("Other", newRecord), ("Read", newRecord)] " Read " = false
    ∧ add_habit [("Read", newRecord)] " Read " = .error .valueError :=
  ⟨(C9_trimmed_insert [("Other", newRecord)] " Read " (by decide)).1 rfl,
   (C9_trimmed_insert [("Other", newRecord)] " Read " (by decide)).2.1 rfl
     (by decide) rfl,
   (C9_trimmed_insert [("Read", newRecord)] " Read " (by decide)).2.2 (by decide)⟩

/-- C3 as stated is refuted: with the untrimmed name `" X "` already a key
of the store, `add_habit` does not fail — the duplicate check trims the
name first, so a new record is inserted under `X`. -/
theorem C3_counterexample :
    hasK [(" X ", newRecord)] " X " = true
    ∧ add_habit [(" X ", newRecord)] " X "
      = .ok [(" X ", newRecord), ("X", newRecord)] :=
  ⟨rfl, rfl⟩

/-- C3 (amended): `add_habit` fails — always with `ValueError`, the
InvalidArgument kind, raised before any mutation — if and only if the
whitespace-trimmed name is empty or the trimmed name is already a key; on
success the store is extended at the trimmed name with a record with
`done = false`, `streak = 0` and `last_done` null (absent), and looking
the trimmed name up returns that record. -/
theorem C3_add_habit_amended (s : Store) (name : String) :
    (add_habit s name = .error .valueError ↔
      (strip name = "" ∨ hasK s (strip name) = true))
    ∧ (∀ s', add_habit s name = .ok s' →
        s' = setK s (strip name) newRecord
        ∧ getD s' (strip name) J.null = newRecord) := by
  by_cases h1 : strip name = ""
  · constructor
    · rw [iff_true_right (Or.inl h1)]
      simp only [add_habit]
      rw [if_pos h1]
    · intro s' hok
      simp only [add_habit] at hok
      rw [if_pos h1] at hok
      exact Except.noConfusion hok
  · by_cases h2 : hasK s (strip name) = true
    · constructor
      · rw [iff_true_right (Or.inr h2)]
        simp only [add_habit]
        rw [if_neg h1, h2, if_pos rfl]
      · intro s' hok
        simp only [add_habit] at hok
        rw [if_neg h1, h2, if_pos rfl] at hok
        exact Except.noConfusion hok
    · have h2f : hasK s (strip name) = false := by
        revert h2
        cases hasK s (strip name) <;> simp
      constructor
      · constructor
        · intro hok
          simp only [add_habit] at hok
          rw [if_neg h1, h2f, if_neg (show ¬(false = true) by decide)] at hok
          exact Except.noConfusion hok
        · intro hc
          rcases hc with hc | hc
          · exact absurd hc h1
          · exact absurd hc h2
      · intro s' hok
        simp only [add_habit] at hok
        rw [if_neg h1, h2f, if_neg (show ¬(false = true) by decide)] at hok
        replace hok := Except.ok.inj hok
        subst hok
        exact ⟨rfl, getD_setK_self _ _ _ _⟩

/-- Witness for C3 (amended): success on a fresh name and failure on a
duplicate trimmed name. -/
theorem C3_witness :
    ([("Read", newRecord)] = setK [] (strip " Read ") newRecord
      ∧ getD [("Read", newRecord)] (strip " Read ") J.null = newRecord)
    ∧ add_habit [("Read", newRecord)] " Read " = .error .valueError :=
  ⟨(C3_add_habit_amended [] " Read ").2 [("Read", newRecord)] rfl,
   (C3_add_habit_amended [("Read", newRecord)] " Read ").1.mpr (Or.inr rfl)⟩

/-- C1 as stated is refuted at the calendar minimum: with `last_done`
present, `mark_done` evaluates `today - one day` before any comparison, so
at `today = 0001-01-01` it raises `OverflowError` instead of resetting the
streak to 1 (the claim's "today earlier than last_done" case). -/
theorem C1_counterexample :
    mark_done [("h", J.obj [("done", J.bool true), ("streak", J.int 5),
      ("last_done", J.str "0001-01-02")])] "h" "0001-01-01"
    = .error .overflowError := rfl

/-- C1 (amended): for every store containing habit `h` with an integer (or
absent, defaulting to 0) `streak` and a `today` that is a valid calendar
date whose previous day exists (i.e. `today` is not `0001-01-01`, where
the date subtraction overflows when `last_done` is present): `mark_done`
sets `streak` to the old streak + 1 when `last_done` parses to `today`'s
previous day; leaves `streak` unchanged when `last_done` parses to
`today`; and sets `streak` to 1 in every other case (`last_done` null, any
gap, or `today` earlier than `last_done`); in all cases it then sets
`done = true` and `last_done = today` (the `markFinish` tail). -/
theorem C1_mark_done_streak_amended (s : Store) (h today : String)
    (fields : Obj) (st : Int) (td ytd : Date)
    (hmem : hasK s h = true)
    (hval : getD s h J.null = J.obj fields)
    (hstreak : getD fields "streak" (J.int 0) = J.int st)
    (htoday : parseIso today = some td)
    (hpred : predDate td = some ytd) :
    (∀ ls, getD fields "last_done" J.null = J.str ls → parseIso ls = some ytd →
      mark_done s h today
        = .ok (markFinish s h (setK fields "streak" (J.int (st + 1))) today))
    ∧ (∀ ls, getD fields "last_done" J.null = J.str ls → parseIso ls = some td →
      mark_done s h today = .ok (markFinish s h fields today))
    ∧ (getD fields "last_done" J.null = J.null →
      mark_done s h today
        = .ok (markFinish s h (setK fields "streak" (J.int 1)) today))
    ∧ (∀ ls ld, getD fields "last_done" J.null = J.str ls → parseIso ls = some ld →
      ld ≠ ytd → ld ≠ td →
      mark_done s h today
        = .ok (markFinish s h (setK fields "streak" (J.int 1)) today)) := by
  refine ⟨?_, ?_, ?_, ?_⟩
  · intro ls hls hpls
    unfold mark_done
    rw [hmem, if_neg (show ¬(true = false) by decide)]
    simp only [hval, hls]
    rw [show truthy (J.str ls) = (ls != "") from rfl, parseIso_ne_empty hpls,
      if_pos rfl]
    simp only [hpls, htoday, hpred]
    rw [if_pos trivial]
    simp only [hstreak, jAddOne]
  · intro ls hls hpls
    unfold mark_done
    rw [hmem, if_neg (show ¬(true = false) by decide)]
    simp only [hval, hls]
    rw [show truthy (J.str ls) = (ls != "") from rfl, parseIso_ne_empty hpls,
      if_pos rfl]
    simp only [hpls, htoday, hpred]
    rw [if_neg (Ne.symm (predDate_ne hpred)), if_pos trivial]
  · intro hls
    unfold mark_done
    rw [hmem, if_neg (show ¬(true = false) by decide)]
    simp only [hval, hls]
    rw [show truthy J.null = false from rfl, if_neg (show ¬(false = true) by decide)]
  · intro ls ld hls hpls hne1 hne2
    unfold mark_done
    rw [hmem, if_neg (show ¬(true = false) by decide)]
    simp only [hval, hls]
    rw [show truthy (J.str ls) = (ls != "") from rfl, parseIso_ne_empty hpls,
      if_pos rfl]
    simp only [hpls, htoday, hpred]
    rw [if_neg hne1, if_neg hne2]

/-- Witness for C1 (amended) across a month boundary: streak 2 with
`last_done = 2025-02-28` becomes streak 3 when marked on `2025-03-01`. -/
theorem C1_witness :
    mark_done [("Read", J.obj [("done", J.bool false), ("streak", J.int 2),
      ("last_done", J.str "2025-02-28")])] "Read" "2025-03-01"
    = .ok [("Read", J.obj [("done", J.bool true), ("streak", J.int 3),
      ("last_done", J.str "2025-03-01")])] :=
  (C1_mark_done_streak_amended
    [("Read", J.obj [("done", J.bool false), ("streak", J.int 2),
      ("last_done", J.str "2025-02-28")])] "Read" "2025-03-01"
    [("done", J.bool false), ("streak", J.int 2), ("last_done", J.str "2025-02-28")]
    2 ⟨2025, 3, 1⟩ ⟨2025, 2, 28⟩ rfl rfl rfl (by decide) (by decide)).1
    "2025-02-28" rfl (by decide)

/-- C6 as stated is refuted: `mark_done` does not parse `today` when the
record's `last_done` is absent, so an unparseable date string is accepted
and stored, breaking the invariant that `last_done` is a valid calendar
date. -/
theorem C6_counterexample :
    storeInv [("h", newRecord)] = true
    ∧ mark_done [("h", newRecord)] "h" "zzz"
      = .ok [("h", J.obj [("done", J.bool true), ("streak", J.int 1),
          ("last_done", J.str "zzz")])]
    ∧ storeInv [("h", J.obj [("done", J.bool true), ("streak", J.int 1),
        ("last_done", J.str "zzz")])] = false :=
  ⟨rfl, rfl, rfl⟩

/-- C6 (amended): every Engine operation preserves the data-model
invariant (`streak >= 0` and `last_done`, when present, a valid calendar
date, for every non-meta record) from every store satisfying it, for every
accepted argument — provided the `today` argument given to `mark_done` is
a valid calendar date string (with an unparseable `today`, `mark_done` on
a record with absent `last_done` stores the invalid string; `reset_daily`
only writes `today` into `_meta`, which the invariant does not cover, so
it needs no such proviso). -/
theorem C6_invariant_amended (s : Store) (name today : String)
    (hs : storeInv s = true) :
    (∀ s', add_habit s name = .ok s' → storeInv s' = true)
    ∧ (∀ td, parseIso today = some td →
        ∀ s', mark_done s name today = .ok s' → storeInv s' = true)
    ∧ (∀ s', unmark_habit s name = .ok s' → storeInv s' = true)
    ∧ (∀ s', delete_habit s name = .ok s' → storeInv s' = true)
    ∧ (∀ s', reset_daily s today = .ok s' → storeInv s' = true) :=
  ⟨fun _ hok => storeInv_add_habit hs hok,
   fun td htd _ hok => storeInv_mark_done hs (by rw [htd]; rfl) hok,
   fun _ hok => storeInv_unmark_habit hs hok,
   fun _ hok => storeInv_delete_habit hs hok,
   fun _ hok => storeInv_reset_daily hs hok⟩

/-- Witness for C6 (amended): marking a fresh habit done on a valid date
yields a store still satisfying the invariant. -/
theorem C6_witness :
    storeInv [("h", J.obj [("done", J.bool true), ("streak", J.int 1),
      ("last_done", J.str "2025-01-01")])] = true :=
  (C6_invariant_amended [("h", newRecord)] "h" "2025-01-01" rfl).2.1
    ⟨2025, 1, 1⟩ (by decide) _ rfl

end HabitTracker
